import Mathlib

/-!
Shallow embedding of `stoq-framework/args.py` (the `StoqArgs` function) and of
the spec-level pipeline components it configures, together with theorems that
settle the claims about them.
-/

namespace Stoq

/-! ### Values held by argparse destinations

Python's argparse `Namespace` attributes here are booleans (the `default=False`
sentinels and the `store_true`/`store_false` flags), strings, integers
(`type=int`), or lists of strings (`nargs='*'`). -/

inductive ArgValue where
  | vBool (b : Bool)
  | vStr (s : String)
  | vInt (n : Int)
  | vList (l : List String)
deriving DecidableEq, Repr

/-- The argparse actions used by `StoqArgs`: plain `store` (the default),
`store_true`, `store_false`, and `store` with `nargs='*'`. -/
inductive ArgAction where
  | store
  | storeTrue
  | storeFalse
  | nargsStar
deriving DecidableEq, Repr

/-- One `add_argument` call: its option strings, destination, default value,
action, optional `choices` list, and whether `type=int` was given. -/
structure ArgSpec where
  flags : List String
  dest : String
  dflt : ArgValue
  action : ArgAction
  choices : Option (List String)
  isInt : Bool
deriving DecidableEq, Repr

/-- `-L`, `--loglevel`: note the source writes `choices=['debug', 'info',
'warning', 'error' 'critical']`; the adjacent Python string literals
`'error' 'critical'` concatenate into the single choice `'errorcritical'`. -/
def logLevelSpec : ArgSpec :=
  ⟨["-L", "--loglevel"], "log_level", ArgValue.vBool false, ArgAction.store,
    some ["debug", "info", "warning", "errorcritical"], false⟩

/-- `-T`, `--template`. -/
def templateSpec : ArgSpec :=
  ⟨["-T", "--template"], "template", ArgValue.vBool false, ArgAction.store, none, false⟩

/-- `-M`, `--max-processes` with `type=int`. -/
def maxProcessesSpec : ArgSpec :=
  ⟨["-M", "--max-processes"], "max_processes", ArgValue.vBool false, ArgAction.store, none, true⟩

/-- `-R`, `--max_recursion` with `type=int`. -/
def maxRecursionSpec : ArgSpec :=
  ⟨["-R", "--max_recursion"], "max_recursion", ArgValue.vBool false, ArgAction.store, none, true⟩

/-- `-C`, `--connector`. -/
def outputConnectorSpec : ArgSpec :=
  ⟨["-C", "--connector"], "output_connector", ArgValue.vBool false, ArgAction.store, none, false⟩

/-- `-A`, `--archive`. -/
def archiveConnectorSpec : ArgSpec :=
  ⟨["-A", "--archive"], "archive_connector", ArgValue.vBool false, ArgAction.store, none, false⟩

/-- `-S`, `--split` with `action='store_false'` and no explicit `default=`:
argparse gives a `store_false` action the implicit default `True`. -/
def combinedResultsSpec : ArgSpec :=
  ⟨["-S", "--split"], "combined_results", ArgValue.vBool true, ArgAction.storeFalse, none, false⟩

/-- `-F`, `--file`. -/
def pathSpec : ArgSpec :=
  ⟨["-F", "--file"], "path", ArgValue.vBool false, ArgAction.store, none, false⟩

/-- `-O`, `--outfile`. -/
def outfileSpec : ArgSpec :=
  ⟨["-O", "--outfile"], "outfile", ArgValue.vBool false, ArgAction.store, none, false⟩

/-- `-I`, `--ingest`. -/
def sourcePluginSpec : ArgSpec :=
  ⟨["-I", "--ingest"], "source_plugin", ArgValue.vBool false, ArgAction.store, none, false⟩

/-- `-E`, `--errors` with `default=False, action='store_true'`. -/
def errorQueueSpec : ArgSpec :=
  ⟨["-E", "--errors"], "error_queue", ArgValue.vBool false, ArgAction.storeTrue, none, false⟩

/-- `-D`, `--dispatch` with `default=False, action='store_true'`. -/
def dispatchSpec : ArgSpec :=
  ⟨["-D", "--dispatch"], "dispatch", ArgValue.vBool false, ArgAction.storeTrue, none, false⟩

/-- `--tlp` with `choices=['white', 'green', 'amber', 'red']`. -/
def defaultTlpSpec : ArgSpec :=
  ⟨["--tlp"], "default_tlp", ArgValue.vBool false, ArgAction.store,
    some ["white", "green", "amber", "red"], false⟩

/-- `--metadata` with `nargs='*'`. -/
def ingestMetadataSpec : ArgSpec :=
  ⟨["--metadata"], "ingest_metadata", ArgValue.vBool false, ArgAction.nargsStar, none, false⟩

/-- `--rate-limit`. -/
def ratelimitSpec : ArgSpec :=
  ⟨["--rate-limit"], "ratelimit", ArgValue.vBool false, ArgAction.store, none, false⟩

/-- The fifteen `add_argument` calls of `StoqArgs`, in source order. -/
def stoqSpecs : List ArgSpec :=
  [logLevelSpec, templateSpec, maxProcessesSpec, maxRecursionSpec,
   outputConnectorSpec, archiveConnectorSpec, combinedResultsSpec,
   pathSpec, outfileSpec, sourcePluginSpec, errorQueueSpec, dispatchSpec,
   defaultTlpSpec, ingestMetadataSpec, ratelimitSpec]

/-- An argparse parser, reduced to the argument specs it recognizes
(`add_argument_group` only affects help formatting, not parsing). -/
structure ArgumentParser where
  specs : List ArgSpec
deriving DecidableEq, Repr

/-- `StoqArgs(parser)`: adds the fifteen framework arguments to the parser it
was given and returns that parser. -/
def StoqArgs (parser : ArgumentParser) : ArgumentParser :=
  { specs := parser.specs ++ stoqSpecs }

/-- A fresh `argparse.ArgumentParser()` initialized with `StoqArgs`. -/
def stoqParser : ArgumentParser := StoqArgs ⟨[]⟩

/-- The parsed namespace: destination name to value. -/
abbrev Env := List (String × ArgValue)

/-- Before parsing, every destination holds its default. -/
def initEnv (specs : List ArgSpec) : Env :=
  specs.map (fun s => (s.dest, s.dflt))

/-- Set a destination's value in the namespace. -/
def setDest (env : Env) (d : String) (v : ArgValue) : Env :=
  env.map (fun p => if p.1 == d then (d, v) else p)

/-- A token that argparse treats as an option rather than a value: it begins
with a dash. -/
def optionLike (t : String) : Bool :=
  match t.data with
  | [] => false
  | c :: _ => c == '-'

/-- Check a value against a `choices` constraint. -/
def choicesOk (c : Option (List String)) (v : String) : Bool :=
  match c with
  | none => true
  | some l => l.contains v

/-- One pass of argparse option processing over the token list.  Each step
consumes at least one token, so fuel equal to the token count suffices.
Unrecognized tokens make the parse fail (the parser defines no positionals),
a `store` option consumes the following non-option token as its value
(checking `choices` and `type=int`), `store_true`/`store_false` consume no
value, and `nargs='*'` consumes the run of following non-option tokens. -/
def parseLoop (specs : List ArgSpec) : Nat → List String → Env → Option Env
  | _, [], env => some env
  | 0, _ :: _, _ => none
  | fuel + 1, t :: rest, env =>
    match specs.find? (fun s => s.flags.contains t) with
    | none => none
    | some s =>
      match s.action with
      | ArgAction.storeTrue =>
        parseLoop specs fuel rest (setDest env s.dest (ArgValue.vBool true))
      | ArgAction.storeFalse =>
        parseLoop specs fuel rest (setDest env s.dest (ArgValue.vBool false))
      | ArgAction.store =>
        match rest with
        | [] => none
        | v :: rest2 =>
          if optionLike v then none
          else if choicesOk s.choices v then
            if s.isInt then
              match v.toInt? with
              | some n => parseLoop specs fuel rest2 (setDest env s.dest (ArgValue.vInt n))
              | none => none
            else parseLoop specs fuel rest2 (setDest env s.dest (ArgValue.vStr v))
          else none
      | ArgAction.nargsStar =>
        parseLoop specs fuel (rest.dropWhile (fun x => !(optionLike x)))
          (setDest env s.dest (ArgValue.vList (rest.takeWhile (fun x => !(optionLike x)))))

/-- `parser.parse_args(args)`: start from the defaults and process the tokens. -/
def parseArgs (p : ArgumentParser) (args : List String) : Option Env :=
  parseLoop p.specs args.length args (initEnv p.specs)

/-- Does the argument list mention one of the given option strings? -/
def hasFlag (args : List String) (fl : List String) : Bool :=
  args.any (fun t => fl.contains t)

/-! ### Spec-level pipeline components

The repository source under `src/` contains only `args.py`; the Result Router,
Recursion Guard, Rate Limiter and Tagging Layer that the options configure are
described by the spec and modelled from it below. -/

/-- Modelled from the spec: the `PluginResult` record of the data model (the
Result Router section), missing from `src/` — a result body, zero or more
extracted child payloads, and a success flag. -/
structure PluginResult where
  body : String
  extracted : List String
  success : Bool
deriving DecidableEq, Repr

/-- Modelled from the spec: the `RoutingDecision` delivery mode — combined or
split. -/
inductive RoutingMode where
  | combined
  | split
deriving DecidableEq, Repr

/-- A record delivered to an output connector: the list of result bodies it
aggregates. -/
abbrev Record := List String

/-- Modelled from the spec: in combined mode all successful `PluginResult`s
for a payload are merged into one aggregate record. -/
def combinedRecord (results : List PluginResult) : Record :=
  (results.filter (fun r => r.success)).map (fun r => r.body)

/-- Modelled from the spec: the records the Result Router emits for one
payload — one merged record in combined mode, one record per `PluginResult`
in split mode. -/
def routedRecords (mode : RoutingMode) (results : List PluginResult) : List Record :=
  match mode with
  | RoutingMode.combined => [combinedRecord results]
  | RoutingMode.split => results.map (fun r => [r.body])

/-- Modelled from the spec: the Result Router `route` operation, missing from
`src/` — it sends every routed record to each configured output connector;
deliveries are (connector, record) pairs. -/
def route (mode : RoutingMode) (results : List PluginResult) :
    List String → List (String × Record)
  | [] => []
  | c :: cs => (routedRecords mode results).map (fun r => (c, r)) ++ route mode results cs

/-- Modelled from the spec: the Recursion Guard `allow` predicate, missing from
`src/` — true iff the lineage depth is within the configured ceiling, where an
unset ceiling disables recursion (only depth 0 passes); a zero ceiling likewise
only admits depth 0. -/
def allow (maxRecursionCeiling : Option Nat) (lineageDepth : Nat) : Bool :=
  match maxRecursionCeiling with
  | none => lineageDepth == 0
  | some m => decide (lineageDepth ≤ m)

/-- The Rate Limiter's window state: how many admissions the current window has
already granted. -/
structure RateState where
  used : Nat
deriving DecidableEq, Repr

/-- Modelled from the spec: the Rate Limiter `admit` operation, missing from
`src/` — grants admission while the window's budget is not exhausted.  The
spec requires admission checks to be serialized (mutex or atomic counter), so
a run of concurrent calls is modelled by the sequential trace of their
serialized admission decisions. -/
def admitOne (budget : Nat) (st : RateState) : Bool × RateState :=
  if st.used < budget then (true, ⟨st.used + 1⟩) else (false, st)

/-- The decisions of `n` successive `admit` calls from a given window state. -/
def admitLoop (budget : Nat) : Nat → RateState → List Bool
  | 0, _ => []
  | n + 1, st => (admitOne budget st).1 :: admitLoop budget n (admitOne budget st).2

/-- The decisions of `n` `admit` calls within one fresh rate window. -/
def admitSeq (budget n : Nat) : List Bool := admitLoop budget n ⟨0⟩

/-- Modelled from the spec: the error raised by the Tagging Layer on a
malformed metadata pair. -/
inductive MetadataError where
  | invalidMetadataFormat
deriving DecidableEq, Repr

/-- Split a character list at the first colon, or fail when there is none. -/
def splitKV : List Char → Option (List Char × List Char)
  | [] => none
  | c :: rest =>
    if c == ':' then some ([], rest)
    else (splitKV rest).map (fun p => (c :: p.1, p.2))

/-- Modelled from the spec: the Tagging Layer's parsing of one metadata pair,
missing from `src/` — a string of the form `key:value` yields the key and the
value, and a string without a colon is rejected with `InvalidMetadataFormat`
rather than crashing or being accepted. -/
def parseMetadataPair (s : String) : Except MetadataError (String × String) :=
  match splitKV s.data with
  | some (k, v) => Except.ok (String.mk k, String.mk v)
  | none => Except.error MetadataError.invalidMetadataFormat

/-- The namespace produced by parsing the single split flag (used as a
concrete witness input). -/
def envSplitW : Env := (parseArgs stoqParser ["-S"]).getD []

/-- The namespace produced by parsing the two boolean toggles (used as a
concrete witness input). -/
def envFlagsW : Env := (parseArgs stoqParser ["-E", "-D"]).getD []

/-- Two plugin results, one successful and one failed (used as a concrete
witness input for routing). -/
def exResults : List PluginResult :=
  [⟨"r1", [], true⟩, ⟨"r2", [], false⟩]

/-! ### Helper lemmas about the parsing loop -/

lemma lookup_setDest_self (env : Env) (d : String) (v : ArgValue) :
    (setDest env d v).lookup d = (env.lookup d).map (fun _ => v) := by
  induction env with
  | nil => rfl
  | cons p env ih =>
    obtain ⟨k, w⟩ := p
    simp only [setDest, List.map_cons] at ih ⊢
    cases hkd : (k == d) with
    | true =>
      have hk : k = d := by simpa using hkd
      subst hk
      rw [if_pos rfl, List.lookup_cons, List.lookup_cons]
      simp only [hkd]
      rfl
    | false =>
      have hk : k ≠ d := by simpa using hkd
      have hdk : (d == k) = false := beq_eq_false_iff_ne.mpr (Ne.symm hk)
      rw [if_neg (by simp [hkd]), List.lookup_cons, List.lookup_cons]
      simp only [hdk]
      exact ih

lemma lookup_setDest_ne (env : Env) (d d2 : String) (v : ArgValue) (h : d2 ≠ d) :
    (setDest env d v).lookup d2 = env.lookup d2 := by
  induction env with
  | nil => rfl
  | cons p env ih =>
    obtain ⟨k, w⟩ := p
    simp only [setDest, List.map_cons] at ih ⊢
    cases hkd : (k == d) with
    | true =>
      have hk : k = d := by simpa using hkd
      have hdk : (d2 == d) = false := beq_eq_false_iff_ne.mpr h
      rw [if_pos rfl, List.lookup_cons, List.lookup_cons, hk]
      simp only [hdk]
      exact ih
    | false =>
      rw [if_neg (by simp [hkd]), List.lookup_cons, List.lookup_cons]
      cases hdk : (d2 == k) with
      | true => rfl
      | false => exact ih

lemma contains_false_of_optionLike_false (fl : List String)
    (hfl : ∀ f ∈ fl, optionLike f = true) (v : String) (hv : optionLike v = false) :
    fl.contains v = false := by
  cases hc : fl.contains v with
  | false => rfl
  | true =>
    have hv2 : v ∈ fl := by simpa [List.elem_iff] using hc
    rw [hfl v hv2] at hv
    cases hv

lemma flags_mem_of_find? {t : String} {s : ArgSpec}
    (hf : stoqSpecs.find? (fun sp => sp.flags.contains t) = some s) :
    s ∈ stoqSpecs ∧ t ∈ s.flags := by
  refine ⟨List.mem_of_find?_eq_some hf, ?_⟩
  have := List.find?_some hf
  simpa [List.elem_iff] using this

lemma hasFlag_cons (t : String) (rest fl : List String) :
    hasFlag (t :: rest) fl = (fl.contains t || hasFlag rest fl) := rfl

lemma hasFlag_append (a b fl : List String) :
    hasFlag (a ++ b) fl = (hasFlag a fl || hasFlag b fl) := by
  simp only [hasFlag, List.any_append]

/-- The value a parse leaves in a purely flag-valued destination `d`: it
becomes `vBool b` exactly when one of the destination's option strings `fl`
occurs among the tokens, and is untouched otherwise. -/
lemma lookup_parseLoop_boolFlag (d : String) (fl : List String) (b : Bool)
    (H1 : ∀ s ∈ stoqSpecs, ∀ t ∈ s.flags, (fl.contains t = true ↔ s.dest = d))
    (H2 : ∀ s ∈ stoqSpecs, s.dest = d →
      (s.action = ArgAction.storeFalse ∧ b = false) ∨
      (s.action = ArgAction.storeTrue ∧ b = true))
    (H3 : ∀ f ∈ fl, optionLike f = true) :
    ∀ fuel tokens env env', parseLoop stoqSpecs fuel tokens env = some env' →
      env'.lookup d = if hasFlag tokens fl then
        (env.lookup d).map (fun _ => ArgValue.vBool b) else env.lookup d := by
  intro fuel
  induction fuel with
  | zero =>
    intro tokens env env' h
    cases tokens with
    | nil =>
      simp only [parseLoop, Option.some.injEq] at h
      subst h
      simp [hasFlag]
    | cons t rest => simp [parseLoop] at h
  | succ fuel ih =>
    intro tokens env env' h
    cases tokens with
    | nil =>
      simp only [parseLoop, Option.some.injEq] at h
      subst h
      simp [hasFlag]
    | cons t rest =>
      simp only [parseLoop] at h
      split at h
      next => cases h
      next s hf =>
        obtain ⟨hs, ht⟩ := flags_mem_of_find? hf
        split at h
        next ha =>
          by_cases hd : s.dest = d
          · have hb : b = true := by
              rcases H2 s hs hd with ⟨h1, _⟩ | ⟨_, h2⟩
              · rw [ha] at h1; cases h1
              · exact h2
            subst hb
            have hcont : fl.contains t = true := (H1 s hs t ht).mpr hd
            have hstep := ih rest (setDest env s.dest (ArgValue.vBool true)) env' h
            rw [hd, lookup_setDest_self] at hstep
            rw [hasFlag_cons, hcont, Bool.true_or, if_pos rfl]
            cases hrest : hasFlag rest fl <;> rw [hrest] at hstep
            · rw [if_neg Bool.false_ne_true] at hstep
              exact hstep
            · rw [if_pos rfl, Option.map_map] at hstep
              simpa [Function.comp] using hstep
          · have hcont : fl.contains t = false := by
              cases hc : fl.contains t with
              | false => rfl
              | true => exact absurd ((H1 s hs t ht).mp hc) hd
            have hstep := ih rest (setDest env s.dest (ArgValue.vBool true)) env' h
            rw [lookup_setDest_ne env s.dest d _ (fun hdd => hd hdd.symm)] at hstep
            rw [hasFlag_cons, hcont, Bool.false_or]
            exact hstep
        next ha =>
          by_cases hd : s.dest = d
          · have hb : b = false := by
              rcases H2 s hs hd with ⟨_, h2⟩ | ⟨h1, _⟩
              · exact h2
              · rw [ha] at h1; cases h1
            subst hb
            have hcont : fl.contains t = true := (H1 s hs t ht).mpr hd
            have hstep := ih rest (setDest env s.dest (ArgValue.vBool false)) env' h
            rw [hd, lookup_setDest_self] at hstep
            rw [hasFlag_cons, hcont, Bool.true_or, if_pos rfl]
            cases hrest : hasFlag rest fl <;> rw [hrest] at hstep
            · rw [if_neg Bool.false_ne_true] at hstep
              exact hstep
            · rw [if_pos rfl, Option.map_map] at hstep
              simpa [Function.comp] using hstep
          · have hcont : fl.contains t = false := by
              cases hc : fl.contains t with
              | false => rfl
              | true => exact absurd ((H1 s hs t ht).mp hc) hd
            have hstep := ih rest (setDest env s.dest (ArgValue.vBool false)) env' h
            rw [lookup_setDest_ne env s.dest d _ (fun hdd => hd hdd.symm)] at hstep
            rw [hasFlag_cons, hcont, Bool.false_or]
            exact hstep
        next ha =>
          have hd : ¬ s.dest = d := by
            intro hdd
            rcases H2 s hs hdd with ⟨h1, _⟩ | ⟨h1, _⟩ <;> rw [ha] at h1 <;> cases h1
          have hcont : fl.contains t = false := by
            cases hc : fl.contains t with
            | false => rfl
            | true => exact absurd ((H1 s hs t ht).mp hc) hd
          split at h
          next => cases h
          next v rest2 =>
            split at h
            next hv => cases h
            next hv =>
              have hv2 : optionLike v = false := by simpa using hv
              have hcv : fl.contains v = false :=
                contains_false_of_optionLike_false fl H3 v hv2
              split at h
              next hch =>
                split at h
                next hint =>
                  split at h
                  next n hto =>
                    have hstep := ih rest2 (setDest env s.dest (ArgValue.vInt n)) env' h
                    rw [lookup_setDest_ne env s.dest d _ (fun hdd => hd hdd.symm)] at hstep
                    rw [hasFlag_cons, hasFlag_cons, hcont, hcv, Bool.false_or, Bool.false_or]
                    exact hstep
                  next hto => cases h
                next hint =>
                  have hstep := ih rest2 (setDest env s.dest (ArgValue.vStr v)) env' h
                  rw [lookup_setDest_ne env s.dest d _ (fun hdd => hd hdd.symm)] at hstep
                  rw [hasFlag_cons, hasFlag_cons, hcont, hcv, Bool.false_or, Bool.false_or]
                  exact hstep
              next hch => cases h
        next ha =>
          have hd : ¬ s.dest = d := by
            intro hdd
            rcases H2 s hs hdd with ⟨h1, _⟩ | ⟨h1, _⟩ <;> rw [ha] at h1 <;> cases h1
          have hcont : fl.contains t = false := by
            cases hc : fl.contains t with
            | false => rfl
            | true => exact absurd ((H1 s hs t ht).mp hc) hd
          have hstep := ih (rest.dropWhile (fun x => !(optionLike x)))
            (setDest env s.dest (ArgValue.vList (rest.takeWhile (fun x => !(optionLike x)))))
            env' h
          rw [lookup_setDest_ne env s.dest d _ (fun hdd => hd hdd.symm)] at hstep
          have htake : hasFlag (rest.takeWhile (fun x => !(optionLike x))) fl = false := by
            show (rest.takeWhile (fun x => !(optionLike x))).any (fun t => fl.contains t) = false
            rw [List.any_eq_false]
            intro x hx hcx
            have hp := List.mem_takeWhile_imp hx
            have hx2 : optionLike x = false := by simpa using hp
            rw [contains_false_of_optionLike_false fl H3 x hx2] at hcx
            cases hcx
          have hrest : hasFlag rest fl =
              hasFlag (rest.dropWhile (fun x => !(optionLike x))) fl := by
            conv_lhs =>
              rw [← List.takeWhile_append_dropWhile (p := fun x => !(optionLike x)) (l := rest)]
            rw [hasFlag_append, htake, Bool.false_or]
          rw [hasFlag_cons, hcont, Bool.false_or, hrest]
          exact hstep

lemma contains_true_iff_mem (l : List String) (a : String) :
    l.contains a = true ↔ a ∈ l := by
  constructor
  · intro h
    simpa [List.elem_iff] using h
  · intro h
    simpa [List.elem_iff] using h

/-! ### Claim theorems about the argument surface -/

/-- C1: StoqArgs defines exactly the fifteen configuration destinations, in
source order — log_level, template, max_processes, max_recursion,
output_connector, archive_connector, combined_results, path, outfile,
source_plugin, error_queue, dispatch, default_tlp, ingest_metadata,
ratelimit — and adds no other destination to the parser it is given. -/
theorem stoqargs_destinations :
    stoqSpecs.map ArgSpec.dest =
      ["log_level", "template", "max_processes", "max_recursion",
       "output_connector", "archive_connector", "combined_results", "path",
       "outfile", "source_plugin", "error_queue", "dispatch", "default_tlp",
       "ingest_metadata", "ratelimit"] ∧
    ∀ p : ArgumentParser, (StoqArgs p).specs.map ArgSpec.dest =
      p.specs.map ArgSpec.dest ++
      ["log_level", "template", "max_processes", "max_recursion",
       "output_connector", "archive_connector", "combined_results", "path",
       "outfile", "source_plugin", "error_queue", "dispatch", "default_tlp",
       "ingest_metadata", "ratelimit"] := by
  refine ⟨rfl, fun p => ?_⟩
  show (p.specs ++ stoqSpecs).map ArgSpec.dest = _
  rw [List.map_append]
  rfl

/-- Instance of the C1 theorem at the empty parser. -/
theorem stoqargs_destinations_w :
    (StoqArgs ⟨[]⟩).specs.map ArgSpec.dest =
      ([] : List ArgSpec).map ArgSpec.dest ++
      ["log_level", "template", "max_processes", "max_recursion",
       "output_connector", "archive_connector", "combined_results", "path",
       "outfile", "source_plugin", "error_queue", "dispatch", "default_tlp",
       "ingest_metadata", "ratelimit"] :=
  stoqargs_destinations.2 ⟨[]⟩

/-- C2: on every successful parse with a StoqArgs-initialized parser,
combined_results is true exactly when neither -S nor --split occurs in the
argument list, and false when one of them does; no option ever sets it back
to true. -/
theorem combined_results_split_toggle (args : List String) (env' : Env)
    (h : parseArgs stoqParser args = some env') :
    env'.lookup "combined_results" =
      some (ArgValue.vBool (!(hasFlag args ["-S", "--split"]))) := by
  have h2 : parseLoop stoqSpecs args.length args (initEnv stoqSpecs) = some env' := h
  have hmain := lookup_parseLoop_boolFlag "combined_results" ["-S", "--split"] false
    (by decide) (by decide) (by decide) args.length args (initEnv stoqSpecs) env' h2
  have hinit : (initEnv stoqSpecs).lookup "combined_results" =
      some (ArgValue.vBool true) := rfl
  rw [hinit] at hmain
  cases hflag : hasFlag args ["-S", "--split"] <;> rw [hflag] at hmain
  · rw [if_neg Bool.false_ne_true] at hmain
    rw [hmain]
    rfl
  · rw [if_pos rfl] at hmain
    rw [hmain]
    rfl

/-- Instance of the C2 theorem at the concrete argument list with the split
flag present. -/
theorem combined_results_split_toggle_w :
    parseArgs stoqParser ["-S"] = some envSplitW ∧
    envSplitW.lookup "combined_results" = some (ArgValue.vBool false) :=
  ⟨by decide, combined_results_split_toggle ["-S"] envSplitW (by decide)⟩

/-- C7: on every successful parse with a StoqArgs-initialized parser, the
error-queue toggle and the automatic-dispatch toggle are false exactly when
their flag is absent and true exactly when it is present; being store_true
flags, they consume no value argument. -/
theorem error_queue_dispatch_toggles (args : List String) (env' : Env)
    (h : parseArgs stoqParser args = some env') :
    env'.lookup "error_queue" =
      some (ArgValue.vBool (hasFlag args ["-E", "--errors"])) ∧
    env'.lookup "dispatch" =
      some (ArgValue.vBool (hasFlag args ["-D", "--dispatch"])) := by
  have h2 : parseLoop stoqSpecs args.length args (initEnv stoqSpecs) = some env' := h
  constructor
  · have hmain := lookup_parseLoop_boolFlag "error_queue" ["-E", "--errors"] true
      (by decide) (by decide) (by decide) args.length args (initEnv stoqSpecs) env' h2
    have hinit : (initEnv stoqSpecs).lookup "error_queue" =
        some (ArgValue.vBool false) := rfl
    rw [hinit] at hmain
    cases hflag : hasFlag args ["-E", "--errors"] <;> rw [hflag] at hmain
    · rw [if_neg Bool.false_ne_true] at hmain
      rw [hmain]
    · rw [if_pos rfl] at hmain
      rw [hmain]
      rfl
  · have hmain := lookup_parseLoop_boolFlag "dispatch" ["-D", "--dispatch"] true
      (by decide) (by decide) (by decide) args.length args (initEnv stoqSpecs) env' h2
    have hinit : (initEnv stoqSpecs).lookup "dispatch" =
        some (ArgValue.vBool false) := rfl
    rw [hinit] at hmain
    cases hflag : hasFlag args ["-D", "--dispatch"] <;> rw [hflag] at hmain
    · rw [if_neg Bool.false_ne_true] at hmain
      rw [hmain]
    · rw [if_pos rfl] at hmain
      rw [hmain]
      rfl

/-- Instance of the C7 theorem at the concrete argument list carrying both
toggles; both parse to true, and neither flag consumed the other as a value. -/
theorem error_queue_dispatch_toggles_w :
    parseArgs stoqParser ["-E", "-D"] = some envFlagsW ∧
    envFlagsW.lookup "error_queue" = some (ArgValue.vBool true) ∧
    envFlagsW.lookup "dispatch" = some (ArgValue.vBool true) :=
  ⟨by decide,
   (error_queue_dispatch_toggles ["-E", "-D"] envFlagsW (by decide)).1,
   (error_queue_dispatch_toggles ["-E", "-D"] envFlagsW (by decide)).2⟩

/-- C10: StoqArgs hands back the parser it was given with the fifteen specs
appended to whatever the parser already had (the embedding of in-place
mutation), and parsing an empty argument list yields the defaults: every
destination is False except combined_results, which is True. -/
theorem stoqargs_result_and_empty_parse :
    (∀ p : ArgumentParser, (StoqArgs p).specs = p.specs ++ stoqSpecs) ∧
    parseArgs stoqParser [] = some (initEnv stoqSpecs) ∧
    initEnv stoqSpecs =
      [("log_level", ArgValue.vBool false), ("template", ArgValue.vBool false),
       ("max_processes", ArgValue.vBool false), ("max_recursion", ArgValue.vBool false),
       ("output_connector", ArgValue.vBool false), ("archive_connector", ArgValue.vBool false),
       ("combined_results", ArgValue.vBool true), ("path", ArgValue.vBool false),
       ("outfile", ArgValue.vBool false), ("source_plugin", ArgValue.vBool false),
       ("error_queue", ArgValue.vBool false), ("dispatch", ArgValue.vBool false),
       ("default_tlp", ArgValue.vBool false), ("ingest_metadata", ArgValue.vBool false),
       ("ratelimit", ArgValue.vBool false)] :=
  ⟨fun _ => rfl, rfl, rfl⟩

/-- Instance of the C10 theorem at the empty parser. -/
theorem stoqargs_result_and_empty_parse_w :
    (StoqArgs ⟨[]⟩).specs = ([] : List ArgSpec) ++ stoqSpecs :=
  stoqargs_result_and_empty_parse.1 ⟨[]⟩

/-- Evaluation of a two-token parse through a non-int `store` option: the
value must not be option-like and must satisfy the option's `choices`. -/
lemma parseLoop_store_once (fuel : Nat) (t v : String) (env : Env) (s : ArgSpec)
    (hf : stoqSpecs.find? (fun sp => sp.flags.contains t) = some s)
    (ha : s.action = ArgAction.store) (hi : s.isInt = false) :
    parseLoop stoqSpecs (fuel + 1) [t, v] env =
      if optionLike v then none
      else if choicesOk s.choices v then
        some (setDest env s.dest (ArgValue.vStr v))
      else none := by
  simp only [parseLoop, hf, ha]
  by_cases hov : optionLike v = true
  · rw [if_pos hov, if_pos hov]
  · rw [if_neg hov, if_neg hov]
    by_cases hch : choicesOk s.choices v = true
    · rw [if_pos hch, if_pos hch, hi, if_neg Bool.false_ne_true]
    · rw [if_neg hch, if_neg hch]

/-- C8: the log level values the parser accepts are exactly debug, info,
warning and errorcritical — the adjacent string literals in the choices list
concatenate — so the natural values error and critical are rejected. -/
theorem log_level_choices_concatenated :
    (∀ s : String, (parseArgs stoqParser ["-L", s]).isSome = true ↔
      s ∈ ["debug", "info", "warning", "errorcritical"]) ∧
    parseArgs stoqParser ["-L", "error"] = none ∧
    parseArgs stoqParser ["-L", "critical"] = none := by
  refine ⟨fun s => ?_, by decide, by decide⟩
  have hstep : parseArgs stoqParser ["-L", s] =
      if optionLike s then none
      else if (["debug", "info", "warning", "errorcritical"] : List String).contains s then
        some (setDest (initEnv stoqSpecs) "log_level" (ArgValue.vStr s))
      else none :=
    parseLoop_store_once 1 "-L" s (initEnv stoqSpecs) logLevelSpec rfl rfl rfl
  rw [hstep]
  by_cases hov : optionLike s = true
  · rw [if_pos hov]
    constructor
    · intro hfalse
      cases hfalse
    · intro hmem
      fin_cases hmem <;> exact absurd hov (by decide)
  · rw [if_neg hov]
    by_cases hch : (["debug", "info", "warning", "errorcritical"] : List String).contains s = true
    · rw [if_pos hch]
      exact ⟨fun _ => (contains_true_iff_mem _ _).mp hch, fun _ => rfl⟩
    · rw [if_neg hch]
      constructor
      · intro hfalse
        cases hfalse
      · intro hmem
        exact absurd ((contains_true_iff_mem _ _).mpr hmem) hch

/-- Instance of the C8 theorem: the concatenated choice is accepted. -/
theorem log_level_choices_concatenated_w :
    (parseArgs stoqParser ["-L", "errorcritical"]).isSome = true :=
  (log_level_choices_concatenated.1 "errorcritical").mpr (by decide)

/-- C9: the TLP option accepts exactly white, green, amber and red; every
other string supplied as its value makes the parse fail. -/
theorem default_tlp_choices (s : String) :
    (parseArgs stoqParser ["--tlp", s]).isSome = true ↔
      s ∈ ["white", "green", "amber", "red"] := by
  have hstep : parseArgs stoqParser ["--tlp", s] =
      if optionLike s then none
      else if (["white", "green", "amber", "red"] : List String).contains s then
        some (setDest (initEnv stoqSpecs) "default_tlp" (ArgValue.vStr s))
      else none :=
    parseLoop_store_once 1 "--tlp" s (initEnv stoqSpecs) defaultTlpSpec rfl rfl rfl
  rw [hstep]
  by_cases hov : optionLike s = true
  · rw [if_pos hov]
    constructor
    · intro hfalse
      cases hfalse
    · intro hmem
      fin_cases hmem <;> exact absurd hov (by decide)
  · rw [if_neg hov]
    by_cases hch : (["white", "green", "amber", "red"] : List String).contains s = true
    · rw [if_pos hch]
      exact ⟨fun _ => (contains_true_iff_mem _ _).mp hch, fun _ => rfl⟩
    · rw [if_neg hch]
      constructor
      · intro hfalse
        cases hfalse
      · intro hmem
        exact absurd ((contains_true_iff_mem _ _).mpr hmem) hch

/-- Instance of the C9 theorem: amber is accepted. -/
theorem default_tlp_choices_w :
    (parseArgs stoqParser ["--tlp", "amber"]).isSome = true :=
  (default_tlp_choices "amber").mpr (by decide)

/-! ### Claim theorems about the spec-modelled pipeline components -/

lemma filter_map_fst_eq (c : String) (records : List Record) :
    (records.map (fun r => (c, r))).filter (fun dl => dl.1 == c) =
      records.map (fun r => (c, r)) := by
  induction records with
  | nil => rfl
  | cons r rs ih => simp [ih]

lemma filter_map_fst_ne (c c2 : String) (h : c2 ≠ c) (records : List Record) :
    (records.map (fun r => (c2, r))).filter (fun dl => dl.1 == c) = [] := by
  induction records with
  | nil => rfl
  | cons r rs ih => simp [ih, h]

lemma filter_route_not_mem (mode : RoutingMode) (results : List PluginResult)
    (c : String) :
    ∀ cs, c ∉ cs → (route mode results cs).filter (fun dl => dl.1 == c) = [] := by
  intro cs
  induction cs with
  | nil => intro _; rfl
  | cons c2 cs ih =>
    intro hc
    simp only [route, List.filter_append]
    rw [filter_map_fst_ne c c2 (fun h => hc (h ▸ List.mem_cons_self c2 cs)),
      ih (fun h => hc (List.mem_cons_of_mem c2 h))]
    rfl

/-- C3: routing a non-empty result list delivers, to each configured output
connector, exactly one record per PluginResult in split mode and exactly one
aggregate record in combined mode. -/
theorem route_counts (mode : RoutingMode) (results : List PluginResult)
    (connectors : List String) (c : String) (_hne : results ≠ [])
    (hnd : connectors.Nodup) (hc : c ∈ connectors) :
    ((route mode results connectors).filter (fun dl => dl.1 == c)).length =
      if mode = RoutingMode.split then results.length else 1 := by
  induction connectors with
  | nil => cases hc
  | cons c2 cs ih =>
    rw [List.nodup_cons] at hnd
    obtain ⟨hnotin, hnd2⟩ := hnd
    rcases List.mem_cons.mp hc with rfl | hc2
    · simp only [route, List.filter_append]
      rw [filter_map_fst_eq, filter_route_not_mem mode results c cs hnotin,
        List.append_nil, List.length_map]
      cases mode <;> simp [routedRecords]
    · simp only [route, List.filter_append]
      rw [filter_map_fst_ne c c2 (fun h => hnotin (h ▸ hc2)), List.nil_append]
      exact ih hnd2 hc2

/-- Instance of the C3 theorem: two results routed in split mode to one
connector produce two records for it. -/
theorem route_counts_w :
    ((route RoutingMode.split exResults ["conn"]).filter
      (fun dl => dl.1 == "conn")).length = 2 :=
  route_counts RoutingMode.split exResults ["conn"] "conn" (by decide) (by decide)
    (by decide)

/-- C4: the Recursion Guard is a pure predicate — with a configured ceiling it
admits exactly the depths not exceeding it, and with the ceiling unset or
zero it admits only depth 0. -/
theorem recursion_guard_allow_spec :
    (∀ m lineageDepth, allow (some m) lineageDepth = true ↔ lineageDepth ≤ m) ∧
    (∀ lineageDepth, allow none lineageDepth = true ↔ lineageDepth = 0) ∧
    (∀ lineageDepth, allow (some 0) lineageDepth = true ↔ lineageDepth = 0) := by
  refine ⟨fun m d => ?_, fun d => ?_, fun d => ?_⟩ <;> simp [allow, Nat.le_zero]

/-- Instance of the C4 theorem at a concrete ceiling and depth. -/
theorem recursion_guard_allow_spec_w : allow (some 2) 1 = true :=
  (recursion_guard_allow_spec.1 2 1).mpr (by decide)

lemma admitLoop_eq (budget : Nat) : ∀ n u, admitLoop budget n ⟨u⟩ =
    (List.range n).map (fun i => decide (u + i < budget)) := by
  intro n
  induction n with
  | zero => intro u; rfl
  | succ n ih =>
    intro u
    rw [List.range_succ_eq_map, List.map_cons, List.map_map]
    have htail : ((fun i : Nat => decide (u + i < budget)) ∘ Nat.succ) =
        (fun i : Nat => decide (u + 1 + i < budget)) := by
      funext i
      simp only [Function.comp]
      have harith : u + Nat.succ i = u + 1 + i := by omega
      rw [harith]
    rw [htail]
    by_cases hu : u < budget
    · have hd : decide (u + 0 < budget) = true := by
        rw [decide_eq_true_iff]
        omega
      simp only [admitLoop, admitOne, if_pos hu]
      rw [ih (u + 1), hd]
    · have hd : decide (u + 0 < budget) = false := by
        rw [decide_eq_false_iff_not]
        omega
      simp only [admitLoop, admitOne, if_neg hu]
      rw [ih u, hd]
      congr 1
      apply List.map_congr_left
      intro i _
      have h1 : decide (u + i < budget) = false := by
        rw [decide_eq_false_iff_not]
        omega
      have h2 : decide (u + 1 + i < budget) = false := by
        rw [decide_eq_false_iff_not]
        omega
      rw [h1, h2]

lemma countP_range_lt (b : Nat) : ∀ n,
    (List.range n).countP (fun i => decide (i < b)) = min n b := by
  intro n
  induction n with
  | zero => simp
  | succ n ih =>
    rw [List.range_succ, List.countP_append, ih]
    by_cases h : n < b
    · simp [List.countP_cons, h]
      omega
    · simp [List.countP_cons, h]
      omega

lemma admitSeq_eq (budget n : Nat) :
    admitSeq budget n = (List.range n).map (fun i => decide (i < budget)) := by
  rw [admitSeq, admitLoop_eq]
  apply List.map_congr_left
  intro i _
  have h0 : 0 + i = i := by omega
  rw [h0]

/-- C5: within one rate window of budget N, any sequence of admit calls
(concurrent calls being serialized by the limiter, as the spec requires) has
at most N successes, every call from the (N+1)-th on is denied, and in
particular the (N+1)-th call fails. -/
theorem rate_limiter_window_budget (budget n : Nat) :
    ((admitSeq budget n).count true ≤ budget) ∧
    (∀ i, budget ≤ i → (admitSeq budget n).getD i false = false) ∧
    (budget < n → (admitSeq budget n).getD budget true = false) := by
  refine ⟨?_, fun i hbi => ?_, fun hbn => ?_⟩
  · rw [admitSeq_eq, List.count_eq_countP, List.countP_map]
    have hfun : ((fun b => b == true) ∘ fun i : Nat => decide (i < budget)) =
        (fun i : Nat => decide (i < budget)) := by
      funext i
      simp [Function.comp]
    rw [hfun, countP_range_lt]
    omega
  · by_cases hin : i < n
    · rw [admitSeq_eq, List.getD_eq_getElem?_getD, List.getElem?_map,
        List.getElem?_range hin]
      have hd : decide (i < budget) = false := by
        rw [decide_eq_false_iff_not]
        omega
      simp [hd]
    · have hnone : (List.range n)[i]? = none := by
        rw [List.getElem?_eq_none_iff, List.length_range]
        omega
      rw [admitSeq_eq, List.getD_eq_getElem?_getD, List.getElem?_map, hnone]
      rfl
  · rw [admitSeq_eq, List.getD_eq_getElem?_getD, List.getElem?_map,
      List.getElem?_range hbn]
    have hd : decide (budget < budget) = false := by
      rw [decide_eq_false_iff_not]
      omega
    simp [hd]

/-- Instance of the C5 theorem at budget 2 over 3 calls: at most 2 succeed
and the third is denied. -/
theorem rate_limiter_window_budget_w :
    (admitSeq 2 3).count true ≤ 2 ∧ (admitSeq 2 3).getD 2 true = false :=
  ⟨(rate_limiter_window_budget 2 3).1,
   (rate_limiter_window_budget 2 3).2.2 (by decide)⟩

lemma splitKV_eq_none (l : List Char) (h : ':' ∉ l) : splitKV l = none := by
  induction l with
  | nil => rfl
  | cons c rest ih =>
    have hc : (c == ':') = false :=
      beq_eq_false_iff_ne.mpr (fun hh => h (by rw [hh]; exact List.mem_cons_self ':' rest))
    simp only [splitKV]
    rw [if_neg (by simp [hc]), ih (fun hr => h (List.mem_cons_of_mem c hr))]
    rfl

lemma splitKV_append (l1 l2 : List Char) (h : ':' ∉ l1) :
    splitKV (l1 ++ ':' :: l2) = some (l1, l2) := by
  induction l1 with
  | nil => rfl
  | cons c rest ih =>
    have hc : (c == ':') = false :=
      beq_eq_false_iff_ne.mpr (fun hh => h (by rw [hh]; exact List.mem_cons_self ':' rest))
    simp only [List.cons_append, splitKV, List.append_eq]
    rw [if_neg (by simp [hc]), ih (fun hr => h (List.mem_cons_of_mem c hr))]
    rfl

/-- C6: the Tagging Layer parses every metadata pair of the form key:value
(colon-free key) into that key and value — in particular tag:APT1 gives key
tag and value APT1 — and any metadata string containing no colon is rejected
with InvalidMetadataFormat instead of crashing or being accepted. -/
theorem metadata_pair_parsing :
    (∀ k v : String, ':' ∉ k.data →
      parseMetadataPair (k ++ ":" ++ v) = Except.ok (k, v)) ∧
    parseMetadataPair "tag:APT1" = Except.ok ("tag", "APT1") ∧
    (∀ s : String, ':' ∉ s.data → parseMetadataPair s =
      Except.error MetadataError.invalidMetadataFormat) := by
  refine ⟨fun k v hk => ?_, rfl, fun s h => ?_⟩
  · have hdata : (k ++ ":" ++ v).data = k.data ++ ':' :: v.data := by
      rw [String.data_append, String.data_append, List.append_assoc]
      rfl
    simp only [parseMetadataPair, hdata, splitKV_append k.data v.data hk]
  · simp only [parseMetadataPair, splitKV_eq_none s.data h]

/-- Instance of the C6 theorem: the key tag with value APT1 parses into that
pair, and the colon-free string bad is rejected. -/
theorem metadata_pair_parsing_w :
    (':' ∉ "tag".data) ∧
    parseMetadataPair ("tag" ++ ":" ++ "APT1") = Except.ok ("tag", "APT1") ∧
    (':' ∉ "bad".data) ∧
    parseMetadataPair "bad" = Except.error MetadataError.invalidMetadataFormat :=
  ⟨by decide, metadata_pair_parsing.1 "tag" "APT1" (by decide), by decide,
   metadata_pair_parsing.2.2 "bad" (by decide)⟩

end Stoq
